import Mathlib

/-!
Verification development for the Ludo game backend
(rooms directory `RoomsService` and rules engine `LudoGameService`).

The TypeScript sources are shallowly embedded:
* JS numbers holding board positions are `Int` (`-1` = home, `0..51` ring,
  `52..56` home stretch, `57` finished); dice values are `Nat`.
* `Math.floor(Math.random() * k)` is modelled by an explicit seed
  `r : Nat` sampled as `r % k` (uniform over `{0..k-1}` per period).
* Thrown `BadRequestException` / `NotFoundException` / `ConflictException`
  become `Except ServiceError`; an error leaves the caller's state unchanged
  because the embedding is purely functional.
* JS `Map` objects become functions `String → Option _`; `Date` timestamp
  fields (`joinedAt`, `createdAt`, `lastActivity`, move-record `timestamp`)
  and the unused room `id` field are dropped: no modelled operation reads them.
* `Array.prototype.find` / `findIndex` + index assignment become `List.find?`
  and `replaceFirstBy` (replace the first element satisfying the predicate).
-/

inductive PlayerColor where
  | red | blue | green | yellow
  deriving DecidableEq, Repr

/-- `Object.values(PlayerColor)` — declaration order of the TS enum. -/
def allColors : List PlayerColor := [.red, .blue, .green, .yellow]

def colorString : PlayerColor → String
  | .red => "red"
  | .blue => "blue"
  | .green => "green"
  | .yellow => "yellow"

structure Token where
  id : String
  color : PlayerColor
  position : Int
  isInHome : Bool
  isInHomeStretch : Bool
  isFinished : Bool
  deriving DecidableEq, Repr

structure MoveRecord where
  playerColor : PlayerColor
  tokenId : String
  fromPos : Int
  toPos : Int
  capturedTokenId : Option String
  deriving DecidableEq, Repr

structure GameState where
  currentTurnPlayerIndex : Nat
  diceValue : Option Nat
  canRollDice : Bool
  consecutiveSixes : Nat
  tokens : List Token
  winner : Option PlayerColor
  moveHistory : List MoveRecord
  playerColorOrder : List PlayerColor
  validMoves : List String
  deriving DecidableEq, Repr

/-- Nest exception classes relevant to the modelled services. -/
inductive ServiceError where
  | badRequest (msg : String)
  | notFound (msg : String)
  | conflict (msg : String)
  deriving DecidableEq, Repr

/-- Replace the first element satisfying `p` by its image under `f`
(JS `findIndex` + index assignment). -/
def replaceFirstBy (p : α → Prop) [DecidablePred p] (f : α → α) : List α → List α
  | [] => []
  | x :: xs => if p x then f x :: xs else x :: replaceFirstBy p f xs

-- ─── LudoGameService board constants ────────────────────────────────────────

def START_POS : PlayerColor → Int
  | .red => 0
  | .green => 13
  | .yellow => 27
  | .blue => 41

def GATEWAY : PlayerColor → Int
  | .red => 51
  | .green => 25
  | .yellow => 39
  | .blue => 46

def SAFE_SQUARES : List Int := [0, 8, 13, 21, 27, 35, 41, 49]

def isSafeSquare (p : Int) : Prop := p ∈ SAFE_SQUARES

instance : DecidablePred isSafeSquare := fun p => by unfold isSafeSquare; infer_instance

-- ─── LudoGameService ────────────────────────────────────────────────────────

structure Player where
  id : String
  name : String
  color : PlayerColor
  isReady : Bool
  isAdmin : Bool
  sessionId : String
  deriving DecidableEq, Repr

def initTokensFor (p : Player) : List Token :=
  (List.range 4).map fun i =>
    { id := colorString p.color ++ "-" ++ toString i
      color := p.color
      position := -1
      isInHome := true
      isInHomeStretch := false
      isFinished := false }

def initializeGame (players : List Player) : GameState :=
  { currentTurnPlayerIndex := 0
    diceValue := none
    canRollDice := true
    consecutiveSixes := 0
    tokens := players.flatMap initTokensFor
    winner := none
    moveHistory := []
    playerColorOrder := players.map (·.color)
    validMoves := [] }

/-- `stepsFromTo`: clockwise distance on the 52-cell main ring. -/
def stepsFromTo (a b : Int) : Int :=
  if a ≤ b then b - a else 52 - a + b

/-- `calculateNewPosition`: destination of `t` under dice `d`, `none` if illegal. -/
def calculateNewPosition (t : Token) (d : Nat) : Option Int :=
  if t.isInHome then
    if d = 6 then some (START_POS t.color) else none
  else if t.isFinished then none
  else if t.isInHomeStretch then
    let next : Int := t.position + d
    if next = 57 then some 57
    else if 57 < next then none
    else some next
  else
    let steps := stepsFromTo t.position (GATEWAY t.color)
    if (d : Int) ≤ steps then
      let raw : Int := t.position + d
      some (if 51 < raw then raw - 52 else raw)
    else
      let stretchPos : Int := 52 + ((d : Int) - steps - 1)
      if 56 < stretchPos then none else some stretchPos

/-- The tokens `computeValidMoves` keeps (its two `filter` stages). -/
def movableTokens (gs : GameState) (c : PlayerColor) (d : Nat) : List Token :=
  (gs.tokens.filter fun t => t.color = c ∧ t.isFinished = false).filter
    fun t => (calculateNewPosition t d).isSome

def computeValidMoves (gs : GameState) (c : PlayerColor) (d : Nat) : List String :=
  (movableTokens gs c d).map (·.id)

def getPlayerCount (gs : GameState) : Nat :=
  (gs.tokens.map (·.color)).dedup.length

def getCurrentPlayerColor (gs : GameState) : PlayerColor :=
  if 0 < gs.playerColorOrder.length then
    gs.playerColorOrder.getD gs.currentTurnPlayerIndex .red
  else
    ([.red, .green, .yellow, .blue] : List PlayerColor).getD gs.currentTurnPlayerIndex .red

/-- `passTurn`: advance to the next player, clearing dice and six counter.
The JS source reads `playerColorOrder?.length ?? getPlayerCount(...)`; the
field is always present in this service's states, so the count is its length. -/
def passTurn (gs : GameState) (lastDiceValue : Nat) : Nat × GameState :=
  let playerCount := gs.playerColorOrder.length
  ( lastDiceValue
  , { gs with
        currentTurnPlayerIndex := (gs.currentTurnPlayerIndex + 1) % playerCount
        diceValue := none
        canRollDice := true
        consecutiveSixes := 0
        validMoves := [] } )

/-- Dice value drawn from seed `r`: `Math.floor(Math.random()*5)+1` after two
consecutive sixes, `Math.floor(Math.random()*6)+1` otherwise. -/
def diceFrom (gs : GameState) (r : Nat) : Nat :=
  if 2 ≤ gs.consecutiveSixes then r % 5 + 1 else r % 6 + 1

def rollDice (r : Nat) (gs : GameState) : Except ServiceError (Nat × GameState) :=
  if gs.canRollDice then
    let d := diceFrom gs r
    let c := getCurrentPlayerColor gs
    let stateWithDice : GameState :=
      { gs with diceValue := some d, canRollDice := false, validMoves := [] }
    let vm := computeValidMoves stateWithDice c d
    if vm = [] then .ok (passTurn stateWithDice d)
    else .ok (d, { stateWithDice with validMoves := vm })
  else
    .error (.badRequest "Cannot roll dice at this time")

/-- Predicate the capture `find` uses on the destination square. -/
def capturePredicate (newPos : Int) (moverColor : PlayerColor) (t : Token) : Prop :=
  t.position = newPos ∧ t.color ≠ moverColor ∧
    t.isInHomeStretch = false ∧ t.isFinished = false ∧ t.isInHome = false

instance : DecidablePred (capturePredicate newPos moverColor) := fun t => by
  unfold capturePredicate; infer_instance

/-- The token (if any) captured by landing on `newPos` — the guarded `find`. -/
def captureTarget (gs : GameState) (moverColor : PlayerColor) (newPos : Int) : Option Token :=
  if 0 ≤ newPos ∧ newPos ≤ 51 ∧ ¬ isSafeSquare newPos then
    gs.tokens.find? fun t => decide (capturePredicate newPos moverColor t)
  else none

/-- A captured token is reset to home (`isFinished` is not touched by the spread). -/
def resetToHome (t : Token) : Token :=
  { t with position := -1, isInHome := true, isInHomeStretch := false }

/-- The moved token with its flags recomputed from the destination. -/
def movedToken (token : Token) (newPos : Int) : Token :=
  { token with
      position := newPos
      isInHome := false
      isInHomeStretch := decide (52 ≤ newPos ∧ newPos ≤ 56)
      isFinished := decide (newPos = 57) }

/-- Well-formedness of a token: its flags agree with its position, as every
state reachable through the engine maintains. -/
def WFToken (t : Token) : Prop :=
  (t.isInHome = true → t.position = -1 ∧ t.isInHomeStretch = false ∧ t.isFinished = false) ∧
  (t.isInHome = false → t.isInHomeStretch = false → t.isFinished = false →
    0 ≤ t.position ∧ t.position ≤ 51) ∧
  (t.isInHomeStretch = true →
    52 ≤ t.position ∧ t.position ≤ 56 ∧ t.isInHome = false ∧ t.isFinished = false) ∧
  (t.isFinished = true → t.position = 57 ∧ t.isInHome = false ∧ t.isInHomeStretch = false)

instance : DecidablePred WFToken := fun t => by unfold WFToken; infer_instance

def colorsInOrder (ts : List Token) : List PlayerColor :=
  ts.foldl (fun acc t => if t.color ∈ acc then acc else acc ++ [t.color]) []

/-- Whether every token of color `c` in `ts` is finished (`ct.every(...)`). -/
def allFinishedOfColor (ts : List Token) (c : PlayerColor) : Bool :=
  (ts.filter fun t => t.color = c).all (·.isFinished)

/-- `checkWinner`: first color (in order of first appearance, as
`Object.entries` iterates) all of whose tokens are finished. -/
def checkWinner (ts : List Token) : Option PlayerColor :=
  (colorsInOrder ts).find? fun c => allFinishedOfColor ts c

/-- The token list after the capture step of `moveToken`. -/
def tokensAfterCapture (gs : GameState) (moverColor : PlayerColor) (newPos : Int) :
    List Token :=
  match captureTarget gs moverColor newPos with
  | some c => replaceFirstBy (fun t => t.id = c.id) (fun _ => resetToHome c) gs.tokens
  | none => gs.tokens

/-- The token list after both the capture step and the move itself. -/
def tokensAfterMove (gs : GameState) (tokenId : String) (token : Token) (newPos : Int) :
    List Token :=
  replaceFirstBy (fun t => t.id = tokenId) (fun _ => movedToken token newPos)
    (tokensAfterCapture gs token.color newPos)

/-- The history entry `moveToken` appends. -/
def moveRecordOf (gs : GameState) (token : Token) (newPos : Int) : MoveRecord :=
  { playerColor := token.color
    tokenId := token.id
    fromPos := token.position
    toPos := newPos
    capturedTokenId := (captureTarget gs token.color newPos).map (·.id) }

/-- The success branch of `moveToken`, once all guards have passed. -/
def moveResult (gs : GameState) (tokenId : String) (token : Token) (d : Nat)
    (newPos : Int) : GameState :=
  let ts2 := tokensAfterMove gs tokenId token newPos
  let mh := gs.moveHistory ++ [moveRecordOf gs token newPos]
  let winner := checkWinner ts2
  let rolledSix := d = 6
  let didCapture := (captureTarget gs token.color newPos).isSome
  if (rolledSix ∨ didCapture) ∧ winner = none then
    let newConsecutiveSixes := if d = 6 then gs.consecutiveSixes + 1 else 0
    if 3 ≤ newConsecutiveSixes then
      (passTurn { gs with tokens := ts2, moveHistory := mh, winner := winner, validMoves := [] } d).2
    else
      { gs with
          tokens := ts2
          diceValue := none
          canRollDice := true
          consecutiveSixes := newConsecutiveSixes
          moveHistory := mh
          winner := winner
          validMoves := [] }
  else
    (passTurn { gs with tokens := ts2, moveHistory := mh, winner := winner, validMoves := [] } d).2

def moveToken (gs : GameState) (tokenId : String) : Except ServiceError GameState :=
  match gs.diceValue with
  | none => .error (.badRequest "Dice must be rolled first")
  | some d =>
    match gs.tokens.find? (fun t => decide (t.id = tokenId)) with
    | none => .error (.badRequest "Token not found")
    | some token =>
      if token.color ≠ getCurrentPlayerColor gs then
        .error (.badRequest "Can only move your own tokens")
      else if tokenId ∉ gs.validMoves then
        .error (.badRequest "This token is not a valid move")
      else
        match calculateNewPosition token d with
        | none => .error (.badRequest "Invalid move")
        | some newPos => .ok (moveResult gs tokenId token d newPos)

def getValidMoves (gs : GameState) (c : PlayerColor) : List String :=
  match gs.diceValue with
  | none => []
  | some d => computeValidMoves gs c d

-- ─── RoomsService ───────────────────────────────────────────────────────────

inductive RoomStatus where
  | waiting | playing | finished
  deriving DecidableEq, Repr

structure Room where
  code : String
  adminId : String
  players : List Player
  maxPlayers : Nat
  status : RoomStatus
  gameState : Option GameState
  deriving Repr

/-- A JS `Map<string, α>` restricted to the operations the services use
(`get` / `set` / `delete` / `has`). -/
def StrMap (α : Type) := String → Option α

def StrMap.empty : StrMap α := fun _ => none

def StrMap.set (m : StrMap α) (k : String) (v : α) : StrMap α :=
  fun k' => if k' = k then some v else m k'

def StrMap.del (m : StrMap α) (k : String) : StrMap α :=
  fun k' => if k' = k then none else m k'

structure DirectoryState where
  rooms : StrMap Room
  playerToRoom : StrMap String

def initialDirectory : DirectoryState :=
  { rooms := StrMap.empty, playerToRoom := StrMap.empty }

/-- `createRoom`. The freshly generated room code and player uuid are passed
as parameters `newCode` / `newPlayerId` (the source draws them randomly;
`generateRoomCode` retries until the code is unused). -/
def createRoom (ds : DirectoryState) (playerName : String) (playerColor : PlayerColor)
    (maxPlayers : Nat) (sessionId newCode newPlayerId : String) :
    Except ServiceError (DirectoryState × Room) :=
  if (ds.playerToRoom sessionId).isSome then
    .error (.conflict "You are already in a room")
  else
    let admin : Player :=
      { id := newPlayerId, name := playerName, color := playerColor
        isReady := false, isAdmin := true, sessionId := sessionId }
    let room : Room :=
      { code := newCode, adminId := newPlayerId, players := [admin]
        maxPlayers := maxPlayers, status := .waiting, gameState := none }
    .ok ( { rooms := ds.rooms.set newCode room
            playerToRoom := ds.playerToRoom.set sessionId newCode }
        , room )

/-- `joinRoom`: assigns the first enum-order color not already taken. -/
def joinRoom (ds : DirectoryState) (roomCode playerName sessionId newPlayerId : String) :
    Except ServiceError (DirectoryState × Room × Player) :=
  if (ds.playerToRoom sessionId).isSome then
    .error (.conflict "You are already in a room")
  else
    match ds.rooms roomCode with
    | none => .error (.notFound "Room not found")
    | some room =>
      if room.status ≠ .waiting then
        .error (.badRequest "Room is not accepting new players")
      else if room.maxPlayers ≤ room.players.length then
        .error (.badRequest "Room is full")
      else
        let takenColors := room.players.map (·.color)
        match allColors.filter (fun c => c ∉ takenColors) with
        | [] => .error (.badRequest "No available colors")
        | c :: _ =>
          let newPlayer : Player :=
            { id := newPlayerId, name := playerName, color := c
              isReady := false, isAdmin := false, sessionId := sessionId }
          let room' := { room with players := room.players ++ [newPlayer] }
          .ok ( { rooms := ds.rooms.set roomCode room'
                  playerToRoom := ds.playerToRoom.set sessionId roomCode }
              , room', newPlayer )

/-- `leaveRoom`: splice the player out; delete an emptied room; otherwise
promote the first remaining player when the admin left. -/
def leaveRoom (ds : DirectoryState) (sessionId : String) :
    Except ServiceError (DirectoryState × Option Room × Bool) :=
  match ds.playerToRoom sessionId with
  | none => .error (.notFound "You are not in any room")
  | some roomCode =>
    match ds.rooms roomCode with
    | none => .error (.notFound "Room not found")
    | some room =>
      match room.players.findIdx? (fun p => decide (p.sessionId = sessionId)) with
      | none => .error (.notFound "Player not found in room")
      | some i =>
        let wasAdmin := ((room.players.get? i).map (·.isAdmin)).getD false
        let remaining := room.players.eraseIdx i
        if remaining = [] then
          .ok ( { rooms := ds.rooms.del roomCode
                  playerToRoom := ds.playerToRoom.del sessionId }
              , none, wasAdmin )
        else
          let room' :=
            if wasAdmin then
              match remaining with
              | [] => { room with players := remaining }
              | q :: qs =>
                { room with players := { q with isAdmin := true } :: qs, adminId := q.id }
            else { room with players := remaining }
          .ok ( { rooms := ds.rooms.set roomCode room'
                  playerToRoom := ds.playerToRoom.del sessionId }
              , some room', wasAdmin )

/-- `updatePlayerColor`: recolor the caller's player, refusing a color held
by any other player (others = players with a different uuid). -/
def updatePlayerColor (ds : DirectoryState) (sessionId : String) (newColor : PlayerColor) :
    Except ServiceError (DirectoryState × Room × Player) :=
  match ds.playerToRoom sessionId with
  | none => .error (.notFound "You are not in any room")
  | some roomCode =>
    match ds.rooms roomCode with
    | none => .error (.notFound "Room not found")
    | some room =>
      match room.players.find? (fun p => decide (p.sessionId = sessionId)) with
      | none => .error (.notFound "Player not found in room")
      | some player =>
        let takenColors := (room.players.filter fun p => p.id ≠ player.id).map (·.color)
        if newColor ∈ takenColors then
          .error (.conflict "Color already taken")
        else
          let player' := { player with color := newColor }
          let room' :=
            { room with
                players := replaceFirstBy (fun p => p.sessionId = sessionId)
                  (fun _ => player') room.players }
          .ok ( { ds with rooms := ds.rooms.set roomCode room' }, room', player' )

/-- `startGame`: admin-only, needs ≥ 2 players and every non-admin ready;
on success flips the room to Playing and installs a fresh `GameState`. -/
def startGame (ds : DirectoryState) (sessionId : String) :
    Except ServiceError (DirectoryState × Room) :=
  match ds.playerToRoom sessionId with
  | none => .error (.notFound "You are not in any room")
  | some roomCode =>
    match ds.rooms roomCode with
    | none => .error (.notFound "Room not found")
    | some room =>
      match room.players.find? (fun p => decide (p.sessionId = sessionId)) with
      | none => .error (.notFound "Player not found in room")
      | some player =>
        if player.isAdmin = false then
          .error (.badRequest "Only admin can start the game")
        else if room.players.length < 2 then
          .error (.badRequest "At least 2 players required to start")
        else if ¬ (room.players.all fun p => p.isReady || p.isAdmin) then
          .error (.badRequest "All players must be ready")
        else
          let room' :=
            { room with
                status := .playing
                gameState := some (initializeGame room.players) }
          .ok ( { ds with rooms := ds.rooms.set roomCode room' }, room' )

/-- The four directory operations claim C10 quantifies over.  The uuids and
room code the source draws at random are carried as constructor arguments. -/
inductive RoomsOp where
  | create (playerName : String) (playerColor : PlayerColor) (maxPlayers : Nat)
      (sessionId newCode newPlayerId : String)
  | join (roomCode playerName sessionId newPlayerId : String)
  | recolor (sessionId : String) (newColor : PlayerColor)
  | leave (sessionId : String)

/-- Apply one operation; a thrown exception leaves the directory unchanged. -/
def applyOp (ds : DirectoryState) : RoomsOp → DirectoryState
  | .create n c m sid code pid =>
    match createRoom ds n c m sid code pid with
    | .ok (ds', _) => ds'
    | .error _ => ds
  | .join code n sid pid =>
    match joinRoom ds code n sid pid with
    | .ok (ds', _, _) => ds'
    | .error _ => ds
  | .recolor sid c =>
    match updatePlayerColor ds sid c with
    | .ok (ds', _, _) => ds'
    | .error _ => ds
  | .leave sid =>
    match leaveRoom ds sid with
    | .ok (ds', _, _) => ds'
    | .error _ => ds

def runOps (ops : List RoomsOp) : DirectoryState :=
  ops.foldl applyOp initialDirectory

/-- Player uuids an operation mints (modelling `uuidv4()` freshness). -/
def opNewIds : RoomsOp → List String
  | .create _ _ _ _ _ pid => [pid]
  | .join _ _ _ pid => [pid]
  | .recolor _ _ => []
  | .leave _ => []

/-- Per-room invariant claim C10 is about: pairwise-distinct player colors;
distinct player uuids are carried along because `updatePlayerColor` compares
"other players" by uuid. -/
def GoodRoom (r : Room) : Prop :=
  (r.players.map (·.color)).Nodup ∧ (r.players.map (·.id)).Nodup

/-- Directory invariant: every stored room is good and only uses player
uuids drawn from `used`. -/
def DirInv (ds : DirectoryState) (used : List String) : Prop :=
  ∀ code r, ds.rooms code = some r →
    GoodRoom r ∧ ∀ p ∈ r.players, p.id ∈ used

-- ─── Sample states for witnesses ────────────────────────────────────────────

def sampleAdminPlayer : Player :=
  { id := "p1", name := "Alice", color := .red
    isReady := false, isAdmin := true, sessionId := "s1" }

def sampleReadyPlayer : Player :=
  { id := "p2", name := "Bob", color := .blue
    isReady := true, isAdmin := false, sessionId := "s2" }

def sampleRoom : Room :=
  { code := "AAAA-0000", adminId := "p1"
    players := [sampleAdminPlayer, sampleReadyPlayer]
    maxPlayers := 4, status := .waiting, gameState := none }

def sampleDirectory : DirectoryState :=
  { rooms := StrMap.empty.set "AAAA-0000" sampleRoom
    playerToRoom := (StrMap.empty.set "s1" "AAAA-0000").set "s2" "AAAA-0000" }

def sampleStartedRoom : Room :=
  { code := "AAAA-0000", adminId := "p1"
    players := [sampleAdminPlayer, sampleReadyPlayer]
    maxPlayers := 4, status := .playing
    gameState := some (initializeGame [sampleAdminPlayer, sampleReadyPlayer]) }

def sampleOps : List RoomsOp :=
  [ .create "Alice" .red 4 "s1" "AAAA-0000" "p1"
  , .join "AAAA-0000" "Bob" "s2" "p2" ]

/-- The room `runOps sampleOps` stores under its code. -/
def sampleJoinedRoom : Room :=
  { code := "AAAA-0000", adminId := "p1"
    players := [{ id := "p1", name := "Alice", color := .red
                  isReady := false, isAdmin := true, sessionId := "s1" },
                { id := "p2", name := "Bob", color := .blue
                  isReady := false, isAdmin := false, sessionId := "s2" }]
    maxPlayers := 4, status := .waiting, gameState := none }

def sampleRollState : GameState :=
  { currentTurnPlayerIndex := 0
    diceValue := none
    canRollDice := true
    consecutiveSixes := 0
    tokens := []
    winner := none
    moveHistory := []
    playerColorOrder := [.red, .green]
    validMoves := [] }

/-- `rollDice 0 sampleRollState` passes the turn (no tokens, so no moves). -/
def sampleRollStatePassed : GameState :=
  { currentTurnPlayerIndex := 1
    diceValue := none
    canRollDice := true
    consecutiveSixes := 0
    tokens := []
    winner := none
    moveHistory := []
    playerColorOrder := [.red, .green]
    validMoves := [] }

def sampleRingToken : Token :=
  { id := "red-0", color := .red, position := 50
    isInHome := false, isInHomeStretch := false, isFinished := false }

def sampleStretchToken : Token :=
  { id := "red-0", color := .red, position := 54
    isInHome := false, isInHomeStretch := true, isFinished := false }

def sampleRedToken : Token :=
  { id := "red-0", color := .red, position := 2
    isInHome := false, isInHomeStretch := false, isFinished := false }

def sampleGreenToken : Token :=
  { id := "green-0", color := .green, position := 5
    isInHome := false, isInHomeStretch := false, isFinished := false }

def sampleCaptureState : GameState :=
  { currentTurnPlayerIndex := 0
    diceValue := some 3
    canRollDice := false
    consecutiveSixes := 0
    tokens := [sampleRedToken, sampleGreenToken]
    winner := none
    moveHistory := []
    playerColorOrder := [.red, .green]
    validMoves := ["red-0"] }

def sampleGreenHomeToken : Token :=
  { id := "green-0", color := .green, position := -1
    isInHome := true, isInHomeStretch := false, isFinished := false }

def sampleMoveState : GameState :=
  { currentTurnPlayerIndex := 0
    diceValue := some 3
    canRollDice := false
    consecutiveSixes := 0
    tokens := [sampleRedToken, sampleGreenHomeToken]
    winner := none
    moveHistory := []
    playerColorOrder := [.red, .green]
    validMoves := ["red-0"] }

def sampleMoveAfter : GameState :=
  { currentTurnPlayerIndex := 1
    diceValue := none
    canRollDice := true
    consecutiveSixes := 0
    tokens := [{ id := "red-0", color := .red, position := 5
                 isInHome := false, isInHomeStretch := false, isFinished := false },
               sampleGreenHomeToken]
    winner := none
    moveHistory := [{ playerColor := .red, tokenId := "red-0", fromPos := 2, toPos := 5
                      capturedTokenId := none }]
    playerColorOrder := [.red, .green]
    validMoves := [] }

def sampleWinState : GameState :=
  { currentTurnPlayerIndex := 0
    diceValue := some 3
    canRollDice := false
    consecutiveSixes := 0
    tokens := [{ id := "red-0", color := .red, position := 54
                 isInHome := false, isInHomeStretch := true, isFinished := false },
               { id := "red-1", color := .red, position := 57
                 isInHome := false, isInHomeStretch := false, isFinished := true },
               { id := "red-2", color := .red, position := 57
                 isInHome := false, isInHomeStretch := false, isFinished := true },
               { id := "red-3", color := .red, position := 57
                 isInHome := false, isInHomeStretch := false, isFinished := true },
               sampleGreenHomeToken]
    winner := none
    moveHistory := []
    playerColorOrder := [.red, .green]
    validMoves := ["red-0"] }

def sampleWinToken : Token :=
  { id := "red-0", color := .red, position := 54
    isInHome := false, isInHomeStretch := true, isFinished := false }

def sampleWinAfter : GameState :=
  { currentTurnPlayerIndex := 1
    diceValue := none
    canRollDice := true
    consecutiveSixes := 0
    tokens := [{ id := "red-0", color := .red, position := 57
                 isInHome := false, isInHomeStretch := false, isFinished := true },
               { id := "red-1", color := .red, position := 57
                 isInHome := false, isInHomeStretch := false, isFinished := true },
               { id := "red-2", color := .red, position := 57
                 isInHome := false, isInHomeStretch := false, isFinished := true },
               { id := "red-3", color := .red, position := 57
                 isInHome := false, isInHomeStretch := false, isFinished := true },
               sampleGreenHomeToken]
    winner := some .red
    moveHistory := [{ playerColor := .red, tokenId := "red-0", fromPos := 54, toPos := 57
                      capturedTokenId := none }]
    playerColorOrder := [.red, .green]
    validMoves := [] }

-- ─── List helper lemmas ─────────────────────────────────────────────────────

theorem replaceFirstBy_cons_pos {p : α → Prop} [DecidablePred p] {f : α → α}
    {x : α} {xs : List α} (h : p x) :
    replaceFirstBy p f (x :: xs) = f x :: xs := by
  simp [replaceFirstBy, h]

theorem replaceFirstBy_cons_neg {p : α → Prop} [DecidablePred p] {f : α → α}
    {x : α} {xs : List α} (h : ¬ p x) :
    replaceFirstBy p f (x :: xs) = x :: replaceFirstBy p f xs := by
  simp [replaceFirstBy, h]

theorem mem_replaceFirstBy_of_not {p : α → Prop} [DecidablePred p] {f : α → α}
    {l : List α} {x : α} (hx : x ∈ l) (hnp : ¬ p x) :
    x ∈ replaceFirstBy p f l := by
  induction l with
  | nil => cases hx
  | cons y ys ih =>
    by_cases hy : p y
    · rw [replaceFirstBy_cons_pos hy]
      rcases List.mem_cons.mp hx with rfl | hmem
      · exact absurd hy hnp
      · exact List.mem_cons_of_mem _ hmem
    · rw [replaceFirstBy_cons_neg hy]
      rcases List.mem_cons.mp hx with rfl | hmem
      · exact List.mem_cons_self ..
      · exact List.mem_cons_of_mem _ (ih hmem)

theorem mem_replaceFirstBy_self {p : α → Prop} [DecidablePred p] {f : α → α}
    {l : List α} {a : α} (ha : a ∈ l) (hpa : p a)
    (huniq : ∀ b ∈ l, p b → b = a) :
    f a ∈ replaceFirstBy p f l := by
  induction l with
  | nil => cases ha
  | cons y ys ih =>
    by_cases hy : p y
    · obtain rfl := huniq y (List.mem_cons_self ..) hy
      rw [replaceFirstBy_cons_pos hy]
      exact List.mem_cons_self ..
    · rw [replaceFirstBy_cons_neg hy]
      rcases List.mem_cons.mp ha with rfl | hmem
      · exact absurd hpa hy
      · exact List.mem_cons_of_mem _
          (ih hmem fun b hb hpb => huniq b (List.mem_cons_of_mem _ hb) hpb)

theorem map_replaceFirstBy {p : α → Prop} [DecidablePred p] {f : α → α} {g : α → β}
    {l : List α} (h : ∀ x ∈ l, p x → g (f x) = g x) :
    (replaceFirstBy p f l).map g = l.map g := by
  induction l with
  | nil => rfl
  | cons y ys ih =>
    by_cases hy : p y
    · rw [replaceFirstBy_cons_pos hy]
      simp [h y (List.mem_cons_self ..) hy]
    · rw [replaceFirstBy_cons_neg hy]
      simp [ih fun x hx hpx => h x (List.mem_cons_of_mem _ hx) hpx]

theorem filter_replaceFirstBy {p : α → Prop} [DecidablePred p] {f : α → α}
    {q : α → Bool} {l : List α}
    (h : ∀ x ∈ l, p x → q x = false ∧ q (f x) = false) :
    (replaceFirstBy p f l).filter q = l.filter q := by
  induction l with
  | nil => rfl
  | cons y ys ih =>
    by_cases hy : p y
    · obtain ⟨hqy, hqfy⟩ := h y (List.mem_cons_self ..) hy
      rw [replaceFirstBy_cons_pos hy, List.filter_cons, List.filter_cons, hqy, hqfy]
      simp
    · rw [replaceFirstBy_cons_neg hy, List.filter_cons, List.filter_cons,
        ih fun x hx hpx => h x (List.mem_cons_of_mem _ hx) hpx]

theorem find?_eq_some_of_unique {p : α → Bool} {l : List α} {a : α}
    (ha : a ∈ l) (hpa : p a = true) (huniq : ∀ b ∈ l, p b = true → b = a) :
    l.find? p = some a := by
  induction l with
  | nil => cases ha
  | cons y ys ih =>
    by_cases hy : p y = true
    · obtain rfl := huniq y (List.mem_cons_self ..) hy
      exact List.find?_cons_of_pos _ hy
    · rw [List.find?_cons_of_neg _ (by simpa using hy)]
      rcases List.mem_cons.mp ha with rfl | hmem
      · exact absurd hpa hy
      · exact ih hmem fun b hb hpb => huniq b (List.mem_cons_of_mem _ hb) hpb

theorem colorsInOrder_eq_foldl_map (ts : List Token) :
    colorsInOrder ts =
      (ts.map (·.color)).foldl (fun acc c => if c ∈ acc then acc else acc ++ [c]) [] := by
  rw [colorsInOrder, List.foldl_map]

theorem mem_foldl_colorInsert (cs : List PlayerColor) :
    ∀ (acc : List PlayerColor) (γ : PlayerColor),
      γ ∈ cs.foldl (fun acc c => if c ∈ acc then acc else acc ++ [c]) acc ↔
        γ ∈ acc ∨ γ ∈ cs := by
  induction cs with
  | nil => simp
  | cons c cs ih =>
    intro acc γ
    simp only [List.foldl_cons]
    rw [ih]
    by_cases hc : c ∈ acc
    · simp only [if_pos hc, List.mem_cons]
      constructor
      · rintro (h | h)
        exacts [Or.inl h, Or.inr (Or.inr h)]
      · rintro (h | rfl | h)
        exacts [Or.inl h, Or.inl hc, Or.inr h]
    · simp only [if_neg hc, List.mem_append, List.mem_singleton, List.mem_cons]
      tauto

theorem mem_colorsInOrder {ts : List Token} {γ : PlayerColor} :
    γ ∈ colorsInOrder ts ↔ γ ∈ ts.map (·.color) := by
  rw [colorsInOrder_eq_foldl_map, mem_foldl_colorInsert]
  simp

theorem colorsInOrder_congr {ts us : List Token}
    (h : ts.map (·.color) = us.map (·.color)) :
    colorsInOrder ts = colorsInOrder us := by
  rw [colorsInOrder_eq_foldl_map, colorsInOrder_eq_foldl_map, h]

-- ─── C1 ─────────────────────────────────────────────────────────────────────

/-- C1: whenever rolling is allowed, `rollDice` succeeds and returns the
drawn value; with the consecutive-six counter at ≥ 2 the drawn value lies in
{1..5} (each value hit by exactly one seed per period of 5, i.e. uniformly)
and can never be 6, otherwise it lies in {1..6} (uniform over seeds mod 6). -/
theorem C1_dice_range (gs : GameState) (r : Nat) (h : gs.canRollDice = true) :
    (∃ gs', rollDice r gs = .ok (diceFrom gs r, gs')) ∧
    (2 ≤ gs.consecutiveSixes →
      (1 ≤ diceFrom gs r ∧ diceFrom gs r ≤ 5) ∧ diceFrom gs r ≠ 6 ∧
      ∀ v, 1 ≤ v → v ≤ 5 →
        ((Finset.range 5).filter fun s => diceFrom gs s = v).card = 1) ∧
    (gs.consecutiveSixes < 2 →
      (1 ≤ diceFrom gs r ∧ diceFrom gs r ≤ 6) ∧
      ∀ v, 1 ≤ v → v ≤ 6 →
        ((Finset.range 6).filter fun s => diceFrom gs s = v).card = 1) := by
  refine ⟨?_, fun hcs => ⟨?_, ?_, ?_⟩, fun hcs => ⟨?_, ?_⟩⟩
  · rw [rollDice, if_pos h]
    dsimp only
    split
    · exact ⟨_, rfl⟩
    · exact ⟨_, rfl⟩
  · unfold diceFrom; rw [if_pos hcs]; omega
  · unfold diceFrom; rw [if_pos hcs]; omega
  · intro v h1 h5
    simp only [diceFrom, if_pos hcs]
    interval_cases v <;> decide
  · unfold diceFrom; rw [if_neg (by omega)]; omega
  · intro v h1 h6
    simp only [diceFrom, if_neg (show ¬ 2 ≤ gs.consecutiveSixes by omega)]
    interval_cases v <;> decide

theorem C1_dice_range_witness :
    1 ≤ diceFrom sampleRollState 0 ∧ diceFrom sampleRollState 0 ≤ 6 :=
  ((C1_dice_range sampleRollState 0 rfl).2.2 (by decide)).1

-- ─── C2 ─────────────────────────────────────────────────────────────────────

/-- C2: when rolling is allowed but the drawn dice value yields no valid
move for the active player, `rollDice` still reports that value to the
caller while the returned state has already advanced to the next player,
with empty `validMoves` and rolling re-enabled. -/
theorem C2_no_moves_passes_turn (gs : GameState) (r : Nat)
    (h : gs.canRollDice = true)
    (hn : 0 < gs.playerColorOrder.length)
    (hempty : computeValidMoves
      { gs with diceValue := some (diceFrom gs r), canRollDice := false, validMoves := [] }
      (getCurrentPlayerColor gs) (diceFrom gs r) = []) :
    ∃ gs', rollDice r gs = .ok (diceFrom gs r, gs') ∧
      gs'.currentTurnPlayerIndex =
        (gs.currentTurnPlayerIndex + 1) % gs.playerColorOrder.length ∧
      gs'.validMoves = [] ∧ gs'.canRollDice = true := by
  rw [rollDice, if_pos h]
  dsimp only
  rw [if_pos hempty]
  exact ⟨_, rfl, rfl, rfl, rfl⟩

theorem C2_no_moves_witness :
    sampleRollStatePassed.currentTurnPlayerIndex =
      (sampleRollState.currentTurnPlayerIndex + 1) % sampleRollState.playerColorOrder.length ∧
    sampleRollStatePassed.validMoves = [] ∧
    sampleRollStatePassed.canRollDice = true := by
  obtain ⟨gs', h1, h2, h3, h4⟩ :=
    C2_no_moves_passes_turn sampleRollState 0 rfl (by decide) (by decide)
  have hx : rollDice 0 sampleRollState =
      .ok (diceFrom sampleRollState 0, sampleRollStatePassed) := rfl
  rw [hx] at h1
  obtain ⟨-, rfl⟩ := Prod.mk.injEq .. ▸ Except.ok.inj h1
  exact ⟨h2, h3, h4⟩

-- ─── C3 ─────────────────────────────────────────────────────────────────────

/-- C3: for a token on the shared ring and dice 1..6, with
`steps = stepsFromTo position gateway`: a roll of at most `steps` lands on
`(position + dice) mod 52`; a larger roll enters the lane at
`52 + (dice - steps - 1)`, and is illegal when that cell exceeds 56. -/
theorem C3_ring_movement (t : Token) (d : Nat)
    (hh : t.isInHome = false) (hf : t.isFinished = false) (hs : t.isInHomeStretch = false)
    (hp0 : 0 ≤ t.position) (hp1 : t.position ≤ 51) (hd1 : 1 ≤ d) (hd6 : d ≤ 6) :
    ((d : Int) ≤ stepsFromTo t.position (GATEWAY t.color) →
      calculateNewPosition t d = some ((t.position + d) % 52)) ∧
    (stepsFromTo t.position (GATEWAY t.color) < (d : Int) →
      (52 + ((d : Int) - stepsFromTo t.position (GATEWAY t.color) - 1) ≤ 56 →
        calculateNewPosition t d =
          some (52 + ((d : Int) - stepsFromTo t.position (GATEWAY t.color) - 1))) ∧
      (56 < 52 + ((d : Int) - stepsFromTo t.position (GATEWAY t.color) - 1) →
        calculateNewPosition t d = none)) := by
  rw [calculateNewPosition, hh, hf, hs]
  simp only [Bool.false_eq_true, if_false]
  refine ⟨fun hle => ?_, fun hlt => ⟨fun hfit => ?_, fun hover => ?_⟩⟩
  · rw [if_pos hle]
    have : (if 51 < t.position + (d : Int) then t.position + (d : Int) - 52
        else t.position + (d : Int)) = (t.position + (d : Int)) % 52 := by
      split <;> omega
    rw [this]
  · rw [if_neg (not_le.mpr hlt), if_neg (not_lt.mpr hfit)]
  · rw [if_neg (not_le.mpr hlt), if_pos hover]

theorem C3_ring_movement_witness :
    calculateNewPosition sampleRingToken 3 =
      some (52 + ((3 : Int) -
        stepsFromTo sampleRingToken.position (GATEWAY sampleRingToken.color) - 1)) :=
  ((C3_ring_movement sampleRingToken 3 rfl rfl rfl (by decide) (by decide)
    (by decide) (by decide)).2 (by decide)).1 (by decide)

-- ─── C4 ─────────────────────────────────────────────────────────────────────

/-- C4: a private-lane token finishing exactly on 57 is legal and its
updated flags mark it `Finished`; overshooting 57 is illegal; a token whose
`isFinished` flag is set (and which is not mislabelled as at home) has no
destination, and `computeValidMoves` never selects a finished token. -/
theorem C4_home_stretch (t : Token) (d : Nat)
    (hh : t.isInHome = false) (hf : t.isFinished = false) (hs : t.isInHomeStretch = true)
    (hp0 : 52 ≤ t.position) (hp1 : t.position ≤ 56) (hd1 : 1 ≤ d) (hd6 : d ≤ 6) :
    (t.position + d = 57 →
      calculateNewPosition t d = some 57 ∧ (movedToken t 57).isFinished = true) ∧
    (57 < t.position + d → calculateNewPosition t d = none) ∧
    (∀ (u : Token) (d' : Nat), u.isFinished = true → u.isInHome = false →
      calculateNewPosition u d' = none) ∧
    (∀ (gs : GameState) (c : PlayerColor) (d' : Nat) (u : Token),
      u ∈ movableTokens gs c d' → u.isFinished = false) := by
  refine ⟨fun hexact => ⟨?_, by simp [movedToken]⟩, fun hover => ?_, ?_, ?_⟩
  · rw [calculateNewPosition, hh, hf, hs]
    simp only [Bool.false_eq_true, if_false, if_true]
    rw [if_pos hexact]
  · rw [calculateNewPosition, hh, hf, hs]
    simp only [Bool.false_eq_true, if_false, if_true]
    rw [if_neg (by omega), if_pos hover]
  · intro u d' hfin hhome
    rw [calculateNewPosition, hfin, hhome]
    simp
  · intro gs c d' u hmem
    simp only [movableTokens, List.mem_filter, decide_eq_true_eq] at hmem
    exact hmem.1.2.2

theorem C4_home_stretch_witness :
    calculateNewPosition sampleStretchToken 3 = some 57 ∧
    (movedToken sampleStretchToken 57).isFinished = true :=
  (C4_home_stretch sampleStretchToken 3 rfl rfl rfl (by decide) (by decide)
    (by decide) (by decide)).1 (by decide)

-- ─── moveToken success-path lemmas ──────────────────────────────────────────

theorem moveToken_eq_ok {gs : GameState} {tid : String} {token : Token} {d : Nat}
    {newPos : Int}
    (hd : gs.diceValue = some d)
    (hfind : gs.tokens.find? (fun t => decide (t.id = tid)) = some token)
    (hcolor : token.color = getCurrentPlayerColor gs)
    (hvalid : tid ∈ gs.validMoves)
    (hcalc : calculateNewPosition token d = some newPos) :
    moveToken gs tid = .ok (moveResult gs tid token d newPos) := by
  simp only [moveToken, hd, hfind, hcalc]
  rw [if_neg (not_not_intro hcolor), if_neg (not_not_intro hvalid)]

theorem mem_tokens_of_mem_movable {gs : GameState} {c : PlayerColor} {d : Nat}
    {u : Token} (hu : u ∈ movableTokens gs c d) :
    u ∈ gs.tokens ∧ u.color = c ∧ (calculateNewPosition u d).isSome = true := by
  simp only [movableTokens, List.mem_filter, decide_eq_true_eq] at hu
  exact ⟨hu.1.1, hu.1.2.1, hu.2⟩

/-- With a consistent `validMoves` field, passing all four guards implies a
computable destination, hence success. -/
theorem moveToken_ok_of (gs : GameState) (tid : String)
    (hids : (gs.tokens.map (·.id)).Nodup)
    (hvm : ∀ d, gs.diceValue = some d →
      gs.validMoves = computeValidMoves gs (getCurrentPlayerColor gs) d)
    (h1 : gs.diceValue ≠ none)
    (h2 : gs.tokens.find? (fun t => decide (t.id = tid)) ≠ none)
    (h3 : ∀ t, gs.tokens.find? (fun t => decide (t.id = tid)) = some t →
      t.color = getCurrentPlayerColor gs)
    (h4 : tid ∈ gs.validMoves) :
    ∃ gs', moveToken gs tid = .ok gs' := by
  obtain ⟨d, hd⟩ := Option.ne_none_iff_exists'.mp h1
  obtain ⟨token, hfind⟩ := Option.ne_none_iff_exists'.mp h2
  have hcolor := h3 token hfind
  have htokmem := List.mem_of_find?_eq_some hfind
  have htokid : token.id = tid := by
    have := List.find?_some hfind
    simpa using this
  have h4' := h4
  rw [hvm d hd] at h4'
  simp only [computeValidMoves, List.mem_map] at h4'
  obtain ⟨u, humem, huid⟩ := h4'
  obtain ⟨humemtok, -, hcalcsome⟩ := mem_tokens_of_mem_movable humem
  have hu_eq : u = token :=
    List.inj_on_of_nodup_map hids humemtok htokmem (by rw [huid, htokid])
  rw [hu_eq] at hcalcsome
  obtain ⟨newPos, hcalc⟩ := Option.isSome_iff_exists.mp hcalcsome
  exact ⟨_, moveToken_eq_ok hd hfind hcolor h4 hcalc⟩

-- ─── Facts about the capture step and the moved token ──────────────────────

theorem captureTarget_spec {gs : GameState} {mc : PlayerColor} {newPos : Int} {c : Token}
    (h : captureTarget gs mc newPos = some c) :
    c ∈ gs.tokens ∧ capturePredicate newPos mc c ∧
      0 ≤ newPos ∧ newPos ≤ 51 ∧ ¬ isSafeSquare newPos := by
  unfold captureTarget at h
  split at h
  case isTrue hcond =>
    refine ⟨List.mem_of_find?_eq_some h, ?_, hcond.1, hcond.2.1, hcond.2.2⟩
    simpa using List.find?_some h
  case isFalse => cases h

theorem find?_id_spec {ts : List Token} {tid : String} {token : Token}
    (h : ts.find? (fun t => decide (t.id = tid)) = some token) :
    token ∈ ts ∧ token.id = tid :=
  ⟨List.mem_of_find?_eq_some h, by simpa using List.find?_some h⟩

theorem capture_ne {gs : GameState} {tid : String} {token c : Token} {newPos : Int}
    (hids : (gs.tokens.map (·.id)).Nodup)
    (hfind : gs.tokens.find? (fun t => decide (t.id = tid)) = some token)
    (hcap : captureTarget gs token.color newPos = some c) :
    c.id ≠ tid := by
  obtain ⟨hcm, hcp, -⟩ := captureTarget_spec hcap
  obtain ⟨htm, htid⟩ := find?_id_spec hfind
  intro he
  have hct : c = token := List.inj_on_of_nodup_map hids hcm htm (by rw [he, htid])
  exact hcp.2.1 (by rw [hct])

theorem tokensAfterCapture_ids (gs : GameState) (mc : PlayerColor) (newPos : Int) :
    (tokensAfterCapture gs mc newPos).map (·.id) = gs.tokens.map (·.id) := by
  unfold tokensAfterCapture
  split
  case h_1 c hcap =>
    apply map_replaceFirstBy
    intro x _ hpx
    simp [resetToHome, hpx]
  case h_2 => rfl

theorem tokensAfterCapture_colors {gs : GameState} {mc : PlayerColor} {newPos : Int}
    (hids : (gs.tokens.map (·.id)).Nodup) :
    (tokensAfterCapture gs mc newPos).map (·.color) = gs.tokens.map (·.color) := by
  unfold tokensAfterCapture
  split
  case h_1 c hcap =>
    obtain ⟨hcm, -, -⟩ := captureTarget_spec hcap
    apply map_replaceFirstBy
    intro x hx hpx
    have : x = c := List.inj_on_of_nodup_map hids hx hcm hpx
    simp [resetToHome, this]
  case h_2 => rfl

theorem token_mem_ts1 {gs : GameState} {tid : String} {token : Token} {newPos : Int}
    (hids : (gs.tokens.map (·.id)).Nodup)
    (hfind : gs.tokens.find? (fun t => decide (t.id = tid)) = some token) :
    token ∈ tokensAfterCapture gs token.color newPos := by
  obtain ⟨htm, htid⟩ := find?_id_spec hfind
  unfold tokensAfterCapture
  split
  case h_1 c hcap =>
    refine mem_replaceFirstBy_of_not htm fun hpx => ?_
    exact capture_ne hids hfind hcap (hpx ▸ htid)
  case h_2 => exact htm

theorem ts1_nodup_ids {gs : GameState} {mc : PlayerColor} {newPos : Int}
    (hids : (gs.tokens.map (·.id)).Nodup) :
    ((tokensAfterCapture gs mc newPos).map (·.id)).Nodup := by
  rw [tokensAfterCapture_ids]; exact hids

theorem moved_mem_ts2 {gs : GameState} {tid : String} {token : Token} {newPos : Int}
    (hids : (gs.tokens.map (·.id)).Nodup)
    (hfind : gs.tokens.find? (fun t => decide (t.id = tid)) = some token) :
    movedToken token newPos ∈ tokensAfterMove gs tid token newPos := by
  obtain ⟨-, htid⟩ := find?_id_spec hfind
  have h1 := @token_mem_ts1 gs tid token newPos hids hfind
  unfold tokensAfterMove
  exact mem_replaceFirstBy_self h1 htid fun b hb hbid =>
    List.inj_on_of_nodup_map (ts1_nodup_ids hids) hb h1 (by rw [hbid, htid])

theorem reset_mem_ts2 {gs : GameState} {tid : String} {token c : Token} {newPos : Int}
    (hids : (gs.tokens.map (·.id)).Nodup)
    (hfind : gs.tokens.find? (fun t => decide (t.id = tid)) = some token)
    (hcap : captureTarget gs token.color newPos = some c) :
    resetToHome c ∈ tokensAfterMove gs tid token newPos := by
  obtain ⟨hcm, -, -⟩ := captureTarget_spec hcap
  have hr1 : resetToHome c ∈ tokensAfterCapture gs token.color newPos := by
    unfold tokensAfterCapture
    rw [hcap]
    exact mem_replaceFirstBy_self hcm rfl fun b hb hbid =>
      List.inj_on_of_nodup_map hids hb hcm hbid
  unfold tokensAfterMove
  refine mem_replaceFirstBy_of_not hr1 fun hpx => ?_
  exact capture_ne hids hfind hcap (by simpa [resetToHome] using hpx)

theorem tokensAfterMove_colors {gs : GameState} {tid : String} {token : Token} {newPos : Int}
    (hids : (gs.tokens.map (·.id)).Nodup)
    (hfind : gs.tokens.find? (fun t => decide (t.id = tid)) = some token) :
    (tokensAfterMove gs tid token newPos).map (·.color) = gs.tokens.map (·.color) := by
  obtain ⟨-, htid⟩ := find?_id_spec hfind
  have h1 := @token_mem_ts1 gs tid token newPos hids hfind
  unfold tokensAfterMove
  rw [map_replaceFirstBy, tokensAfterCapture_colors hids]
  intro x hx hpx
  have : x = token :=
    List.inj_on_of_nodup_map (ts1_nodup_ids hids) hx h1 (by rw [hpx, htid])
  simp [movedToken, this]

theorem tokensAfterMove_filter_color {gs : GameState} {tid : String} {token : Token}
    {newPos : Int} {γ : PlayerColor}
    (hids : (gs.tokens.map (·.id)).Nodup)
    (hfind : gs.tokens.find? (fun t => decide (t.id = tid)) = some token)
    (hγt : γ ≠ token.color)
    (hγc : ∀ c, captureTarget gs token.color newPos = some c → γ ≠ c.color) :
    (tokensAfterMove gs tid token newPos).filter (fun t => decide (t.color = γ)) =
      gs.tokens.filter (fun t => decide (t.color = γ)) := by
  obtain ⟨-, htid⟩ := find?_id_spec hfind
  have h1 := @token_mem_ts1 gs tid token newPos hids hfind
  have houter : (tokensAfterMove gs tid token newPos).filter (fun t => decide (t.color = γ)) =
      (tokensAfterCapture gs token.color newPos).filter (fun t => decide (t.color = γ)) := by
    unfold tokensAfterMove
    apply filter_replaceFirstBy
    intro x hx hpx
    have hx_eq : x = token :=
      List.inj_on_of_nodup_map (ts1_nodup_ids hids) hx h1 (by rw [hpx, htid])
    constructor
    · simp [hx_eq]; exact fun h => hγt h.symm
    · simp [movedToken]; exact fun h => hγt h.symm
  rw [houter]
  unfold tokensAfterCapture
  split
  case h_1 c hcap =>
    obtain ⟨hcm, -, -⟩ := captureTarget_spec hcap
    apply filter_replaceFirstBy
    intro x hx hpx
    have hx_eq : x = c := List.inj_on_of_nodup_map hids hx hcm hpx
    constructor
    · simp [hx_eq]; exact fun h => hγc c hcap h.symm
    · simp [resetToHome]; exact fun h => hγc c hcap h.symm
  case h_2 => rfl

-- ─── Winner analysis after a move ───────────────────────────────────────────

theorem allFin_ts2_imp {gs : GameState} {tid : String} {token : Token} {newPos : Int}
    {γ : PlayerColor}
    (hids : (gs.tokens.map (·.id)).Nodup)
    (hfind : gs.tokens.find? (fun t => decide (t.id = tid)) = some token)
    (hwin : checkWinner gs.tokens = none)
    (hγmem : γ ∈ colorsInOrder (tokensAfterMove gs tid token newPos))
    (hall : allFinishedOfColor (tokensAfterMove gs tid token newPos) γ = true) :
    γ = token.color := by
  by_contra hne
  rw [checkWinner, List.find?_eq_none] at hwin
  have hγpre : γ ∈ colorsInOrder gs.tokens := by
    rwa [colorsInOrder_congr (tokensAfterMove_colors hids hfind)] at hγmem
  have hunchanged : ∀ (_ : ∀ c, captureTarget gs token.color newPos = some c → γ ≠ c.color),
      False := by
    intro hγc
    have hfilter := tokensAfterMove_filter_color hids hfind hne hγc
    have hallpre : allFinishedOfColor gs.tokens γ = true := by
      unfold allFinishedOfColor at hall ⊢
      rw [← hfilter]
      exact hall
    exact hwin γ hγpre hallpre
  cases hcap : captureTarget gs token.color newPos with
  | none => exact hunchanged fun c hc => by rw [hcap] at hc; cases hc
  | some c =>
    by_cases hγc : γ = c.color
    · have hmem := reset_mem_ts2 hids hfind hcap
      obtain ⟨-, hcp, -⟩ := captureTarget_spec hcap
      unfold allFinishedOfColor at hall
      rw [List.all_eq_true] at hall
      have hmf : resetToHome c ∈
          (tokensAfterMove gs tid token newPos).filter (fun t => decide (t.color = γ)) := by
        rw [List.mem_filter]
        exact ⟨hmem, by simp [resetToHome, hγc]⟩
      have := hall _ hmf
      simp [resetToHome, hcp.2.2.2.1] at this
    · exact hunchanged fun c' hc' => by
        rw [hcap] at hc'
        cases hc'
        exact hγc

theorem allFin_mover_imp_57 {gs : GameState} {tid : String} {token : Token} {newPos : Int}
    (hids : (gs.tokens.map (·.id)).Nodup)
    (hfind : gs.tokens.find? (fun t => decide (t.id = tid)) = some token)
    (hall : allFinishedOfColor (tokensAfterMove gs tid token newPos) token.color = true) :
    newPos = 57 := by
  have hmm := @moved_mem_ts2 gs tid token newPos hids hfind
  unfold allFinishedOfColor at hall
  rw [List.all_eq_true] at hall
  have hmf : movedToken token newPos ∈
      (tokensAfterMove gs tid token newPos).filter
        (fun t => decide (t.color = token.color)) := by
    rw [List.mem_filter]
    exact ⟨hmm, by simp [movedToken]⟩
  have := hall _ hmf
  simpa [movedToken] using this

theorem checkWinner_after_cases {gs : GameState} {tid : String} {token : Token}
    {newPos : Int} {γ : PlayerColor}
    (hids : (gs.tokens.map (·.id)).Nodup)
    (hfind : gs.tokens.find? (fun t => decide (t.id = tid)) = some token)
    (hwin : checkWinner gs.tokens = none)
    (h : checkWinner (tokensAfterMove gs tid token newPos) = some γ) :
    γ = token.color ∧ newPos = 57 := by
  have hγmem := List.mem_of_find?_eq_some h
  have hall := List.find?_some h
  have hγ := allFin_ts2_imp hids hfind hwin hγmem hall
  subst hγ
  exact ⟨rfl, allFin_mover_imp_57 hids hfind hall⟩

theorem checkWinner_after_eq_none {gs : GameState} {tid : String} {token : Token}
    {newPos : Int}
    (hids : (gs.tokens.map (·.id)).Nodup)
    (hfind : gs.tokens.find? (fun t => decide (t.id = tid)) = some token)
    (hwin : checkWinner gs.tokens = none)
    (hne57 : newPos ≠ 57) :
    checkWinner (tokensAfterMove gs tid token newPos) = none := by
  cases h : checkWinner (tokensAfterMove gs tid token newPos) with
  | none => rfl
  | some γ => exact absurd (checkWinner_after_cases hids hfind hwin h).2 hne57

/-- With well-formed flags, a roll of 6 can never land exactly on the finish
cell 57 (only lane tokens at 52..56 reach 57, and they need 1..5). -/
theorem calc_six_ne_57 {t : Token} (hwf : WFToken t) :
    calculateNewPosition t 6 ≠ some 57 := by
  obtain ⟨hwh, hwr, hws, hwfin⟩ := hwf
  intro h
  rw [calculateNewPosition] at h
  by_cases hh : t.isInHome = true
  · rw [if_pos hh, if_pos rfl] at h
    cases hc : t.color <;> rw [hc] at h <;> simp [START_POS] at h
  · have hh' : t.isInHome = false := by simpa using hh
    rw [if_neg hh] at h
    by_cases hfin : t.isFinished = true
    · rw [if_pos hfin] at h
      cases h
    · rw [if_neg hfin] at h
      have hfin' : t.isFinished = false := by simpa using hfin
      by_cases hstr : t.isInHomeStretch = true
      · obtain ⟨hp1, hp2, -, -⟩ := hws hstr
        rw [if_pos hstr] at h
        dsimp only at h
        split_ifs at h with h1 h2 <;>
          first
            | exact Option.noConfusion h
            | (try have hinj := Option.some.inj h
               omega)
      · have hstr' : t.isInHomeStretch = false := by simpa using hstr
        obtain ⟨hp1, hp2⟩ := hwr hh' hstr' hfin'
        rw [if_neg hstr] at h
        dsimp only at h
        split_ifs at h with h1 h2 h3 <;>
          first
            | exact Option.noConfusion h
            | (try have hinj := Option.some.inj h
               omega)

-- ─── moveResult field lemmas ────────────────────────────────────────────────

theorem moveResult_tokens (gs : GameState) (tid : String) (token : Token) (d : Nat)
    (newPos : Int) :
    (moveResult gs tid token d newPos).tokens = tokensAfterMove gs tid token newPos := by
  unfold moveResult passTurn
  dsimp only
  split_ifs <;> rfl

theorem moveResult_moveHistory (gs : GameState) (tid : String) (token : Token) (d : Nat)
    (newPos : Int) :
    (moveResult gs tid token d newPos).moveHistory =
      gs.moveHistory ++ [moveRecordOf gs token newPos] := by
  unfold moveResult passTurn
  dsimp only
  split_ifs <;> rfl

theorem moveResult_winner (gs : GameState) (tid : String) (token : Token) (d : Nat)
    (newPos : Int) :
    (moveResult gs tid token d newPos).winner =
      checkWinner (tokensAfterMove gs tid token newPos) := by
  unfold moveResult passTurn
  dsimp only
  split_ifs <;> rfl

theorem next_index_ne {i n : Nat} (h2 : 2 ≤ n) (hi : i < n) : (i + 1) % n ≠ i := by
  rcases Nat.lt_or_ge (i + 1) n with h | h
  · rw [Nat.mod_eq_of_lt h]
    omega
  · have he : i + 1 = n := by omega
    rw [he, Nat.mod_self]
    omega

-- ─── C5 ─────────────────────────────────────────────────────────────────────

/-- C5: on a successful move to a shared-ring cell, if the cell is unsafe and
the capture scan finds an opposing ring token there, that token reappears
reset to Home and its id is recorded as `capturedTokenId` in the appended
record; if the cell is one of the 8 safe squares, no capture is recorded and
every token other than the moved one is carried over unchanged. -/
theorem C5_capture (gs : GameState) (tid : String) (token : Token) (d : Nat) (newPos : Int)
    (hids : (gs.tokens.map (·.id)).Nodup)
    (hd : gs.diceValue = some d)
    (hfind : gs.tokens.find? (fun t => decide (t.id = tid)) = some token)
    (hcolor : token.color = getCurrentPlayerColor gs)
    (hvalid : tid ∈ gs.validMoves)
    (hcalc : calculateNewPosition token d = some newPos)
    (hring0 : 0 ≤ newPos) (hring1 : newPos ≤ 51) :
    ∃ gs', moveToken gs tid = .ok gs' ∧
      gs'.moveHistory = gs.moveHistory ++ [moveRecordOf gs token newPos] ∧
      (¬ isSafeSquare newPos →
        ∀ c, captureTarget gs token.color newPos = some c →
          (moveRecordOf gs token newPos).capturedTokenId = some c.id ∧
          ∃ t' ∈ gs'.tokens, t'.id = c.id ∧ t'.position = -1 ∧
            t'.isInHome = true ∧ t'.isInHomeStretch = false) ∧
      (isSafeSquare newPos →
        (moveRecordOf gs token newPos).capturedTokenId = none ∧
        ∀ t ∈ gs.tokens, t.id ≠ tid → t ∈ gs'.tokens) := by
  refine ⟨moveResult gs tid token d newPos,
    moveToken_eq_ok hd hfind hcolor hvalid hcalc,
    moveResult_moveHistory gs tid token d newPos, ?_, ?_⟩
  · intro _ c hcap
    refine ⟨by simp [moveRecordOf, hcap], resetToHome c, ?_, rfl, rfl, rfl, rfl⟩
    rw [moveResult_tokens]
    exact reset_mem_ts2 hids hfind hcap
  · intro hsafe
    have hcap : captureTarget gs token.color newPos = none := by
      unfold captureTarget
      rw [if_neg (by tauto)]
    refine ⟨by simp [moveRecordOf, hcap], ?_⟩
    intro t htmem htne
    rw [moveResult_tokens]
    simp only [tokensAfterMove, tokensAfterCapture, hcap]
    exact mem_replaceFirstBy_of_not htmem fun hpx => htne hpx

theorem C5_capture_witness :
    (moveRecordOf sampleCaptureState sampleRedToken 5).capturedTokenId = some "green-0" := by
  obtain ⟨gs', -, -, hcapture, -⟩ :=
    C5_capture sampleCaptureState "red-0" sampleRedToken 3 5 (by decide) rfl (by decide)
      (by decide) (by decide) (by decide) (by decide) (by decide)
  exact (hcapture (by decide) sampleGreenToken (by decide)).1

-- ─── C6 ─────────────────────────────────────────────────────────────────────

/-- C6: after a successful move (on a live, well-formed state), the acting
player keeps the turn — index unchanged, dice cleared, rolling re-enabled —
exactly when the dice was 6 or a capture occurred and this was not the third
consecutive six; whenever the turn passes instead, the index advances to the
next player, the dice is cleared, rolling is re-enabled and the
consecutive-six counter resets to 0. -/
theorem C6_turn_continuation (gs : GameState) (tid : String) (token : Token) (d : Nat)
    (newPos : Int)
    (hids : (gs.tokens.map (·.id)).Nodup)
    (hwf : ∀ t ∈ gs.tokens, WFToken t)
    (hwin : checkWinner gs.tokens = none)
    (hd : gs.diceValue = some d)
    (hfind : gs.tokens.find? (fun t => decide (t.id = tid)) = some token)
    (hcolor : token.color = getCurrentPlayerColor gs)
    (hvalid : tid ∈ gs.validMoves)
    (hcalc : calculateNewPosition token d = some newPos)
    (hn : 2 ≤ gs.playerColorOrder.length)
    (hidx : gs.currentTurnPlayerIndex < gs.playerColorOrder.length) :
    ∃ gs', moveToken gs tid = .ok gs' ∧
      (((d = 6 ∨ (captureTarget gs token.color newPos).isSome = true) ∧
         ¬(d = 6 ∧ 2 ≤ gs.consecutiveSixes)) →
        gs'.currentTurnPlayerIndex = gs.currentTurnPlayerIndex ∧
        gs'.diceValue = none ∧ gs'.canRollDice = true) ∧
      (¬((d = 6 ∨ (captureTarget gs token.color newPos).isSome = true) ∧
         ¬(d = 6 ∧ 2 ≤ gs.consecutiveSixes)) →
        gs'.currentTurnPlayerIndex =
          (gs.currentTurnPlayerIndex + 1) % gs.playerColorOrder.length ∧
        gs'.currentTurnPlayerIndex ≠ gs.currentTurnPlayerIndex ∧
        gs'.diceValue = none ∧ gs'.canRollDice = true ∧ gs'.consecutiveSixes = 0) := by
  have hwnone : (d = 6 ∨ (captureTarget gs token.color newPos).isSome = true) →
      checkWinner (tokensAfterMove gs tid token newPos) = none := by
    intro hsc
    apply checkWinner_after_eq_none hids hfind hwin
    intro h57
    rcases hsc with h6 | hc
    · subst h6
      exact calc_six_ne_57 (hwf token (find?_id_spec hfind).1) (h57 ▸ hcalc)
    · obtain ⟨c, hc'⟩ := Option.isSome_iff_exists.mp hc
      obtain ⟨-, -, -, hle, -⟩ := captureTarget_spec hc'
      omega
  refine ⟨moveResult gs tid token d newPos,
    moveToken_eq_ok hd hfind hcolor hvalid hcalc, ?_, ?_⟩
  · rintro ⟨hsc, hnothird⟩
    have hw := hwnone hsc
    unfold moveResult
    dsimp only
    rw [if_pos ⟨hsc, hw⟩]
    rw [if_neg (show ¬ 3 ≤ (if d = 6 then gs.consecutiveSixes + 1 else 0) by
      split_ifs with h6
      · exact fun hge => hnothird ⟨h6, by omega⟩
      · omega)]
    exact ⟨rfl, rfl, rfl⟩
  · intro hnkeep
    by_cases hsc : d = 6 ∨ (captureTarget gs token.color newPos).isSome = true
    · have hthird : d = 6 ∧ 2 ≤ gs.consecutiveSixes := by
        by_contra hx
        exact hnkeep ⟨hsc, hx⟩
      have hw := hwnone hsc
      unfold moveResult
      dsimp only
      rw [if_pos ⟨hsc, hw⟩]
      rw [if_pos (show 3 ≤ (if d = 6 then gs.consecutiveSixes + 1 else 0) by
        rw [if_pos hthird.1]
        omega)]
      unfold passTurn
      dsimp only
      exact ⟨rfl, next_index_ne hn hidx, rfl, rfl, rfl⟩
    · unfold moveResult
      dsimp only
      rw [if_neg fun hcond => hsc hcond.1]
      unfold passTurn
      dsimp only
      exact ⟨rfl, next_index_ne hn hidx, rfl, rfl, rfl⟩

theorem C6_turn_continuation_witness :
    sampleMoveAfter.currentTurnPlayerIndex =
      (sampleMoveState.currentTurnPlayerIndex + 1) %
        sampleMoveState.playerColorOrder.length ∧
    sampleMoveAfter.currentTurnPlayerIndex ≠ sampleMoveState.currentTurnPlayerIndex ∧
    sampleMoveAfter.diceValue = none ∧
    sampleMoveAfter.canRollDice = true ∧
    sampleMoveAfter.consecutiveSixes = 0 := by
  obtain ⟨gs', hok, -, hpass⟩ :=
    C6_turn_continuation sampleMoveState "red-0" sampleRedToken 3 5 (by decide) (by decide)
      (by decide) rfl (by decide) (by decide) (by decide) (by decide) (by decide) (by decide)
  have hx : moveToken sampleMoveState "red-0" = .ok sampleMoveAfter := rfl
  rw [hx] at hok
  obtain rfl := Except.ok.inj hok
  exact hpass (by decide)

-- ─── C7 ─────────────────────────────────────────────────────────────────────

/-- C7: on a successful move from a live state (no color already fully
finished), if afterwards every token of the acting color is finished the
returned winner is that color; the winner can never be set to another color;
and `checkWinner` stays `none` whenever every color still has an unfinished
token. -/
theorem C7_winner (gs : GameState) (tid : String) (token : Token) (d : Nat) (newPos : Int)
    (hids : (gs.tokens.map (·.id)).Nodup)
    (hwin : checkWinner gs.tokens = none)
    (hd : gs.diceValue = some d)
    (hfind : gs.tokens.find? (fun t => decide (t.id = tid)) = some token)
    (hcolor : token.color = getCurrentPlayerColor gs)
    (hvalid : tid ∈ gs.validMoves)
    (hcalc : calculateNewPosition token d = some newPos) :
    ∃ gs', moveToken gs tid = .ok gs' ∧
      ((gs'.tokens.filter (fun t => decide (t.color = token.color))).all
          (·.isFinished) = true →
        gs'.winner = some token.color) ∧
      (∀ γ, gs'.winner = some γ → γ = token.color) ∧
      (∀ ts : List Token,
        (∀ γ ∈ colorsInOrder ts, ∃ t ∈ ts, t.color = γ ∧ t.isFinished = false) →
        checkWinner ts = none) := by
  refine ⟨moveResult gs tid token d newPos,
    moveToken_eq_ok hd hfind hcolor hvalid hcalc, ?_, ?_, ?_⟩
  · intro hall
    rw [moveResult_tokens] at hall
    rw [moveResult_winner]
    apply find?_eq_some_of_unique
    · exact mem_colorsInOrder.mpr
        (List.mem_map.mpr ⟨movedToken token newPos, moved_mem_ts2 hids hfind, rfl⟩)
    · exact hall
    · intro γ' hγ'mem hall'
      exact allFin_ts2_imp hids hfind hwin hγ'mem hall'
  · intro γ hγ
    rw [moveResult_winner] at hγ
    exact (checkWinner_after_cases hids hfind hwin hγ).1
  · intro ts hunfin
    rw [checkWinner, List.find?_eq_none]
    intro γ hγ hcontra
    obtain ⟨t, htmem, htcol, htfin⟩ := hunfin γ hγ
    have hmf : t ∈ ts.filter (fun t => decide (t.color = γ)) :=
      List.mem_filter.mpr ⟨htmem, by simp [htcol]⟩
    have := List.all_eq_true.mp hcontra _ hmf
    rw [htfin] at this
    cases this

theorem C7_winner_witness : sampleWinAfter.winner = some PlayerColor.red := by
  obtain ⟨gs', hok, hwinr, -, -⟩ :=
    C7_winner sampleWinState "red-0" sampleWinToken 3 57 (by decide) (by decide) rfl
      (by decide) (by decide) (by decide) (by decide)
  have hx : moveToken sampleWinState "red-0" = .ok sampleWinAfter := rfl
  rw [hx] at hok
  obtain rfl := Except.ok.inj hok
  exact hwinr (by decide)

-- ─── C8 ─────────────────────────────────────────────────────────────────────

/-- C8: with a `validMoves` field consistent with the current dice (the
invariant `rollDice` maintains) and distinct token ids, `moveToken` throws
exactly when the dice is null, the token id is unknown, the token is not the
active player's, or the id is not in `validMoves`; otherwise it succeeds.
The embedding is purely functional, so a thrown error leaves the caller's
state untouched. -/
theorem C8_moveToken_guards (gs : GameState) (tid : String)
    (hids : (gs.tokens.map (·.id)).Nodup)
    (hvm : ∀ d, gs.diceValue = some d →
      gs.validMoves = computeValidMoves gs (getCurrentPlayerColor gs) d) :
    ((∃ e, moveToken gs tid = .error e) ↔
      (gs.diceValue = none ∨
       gs.tokens.find? (fun t => decide (t.id = tid)) = none ∨
       (∃ t, gs.tokens.find? (fun t => decide (t.id = tid)) = some t ∧
         t.color ≠ getCurrentPlayerColor gs) ∨
       tid ∉ gs.validMoves)) ∧
    (¬ (gs.diceValue = none ∨
        gs.tokens.find? (fun t => decide (t.id = tid)) = none ∨
        (∃ t, gs.tokens.find? (fun t => decide (t.id = tid)) = some t ∧
          t.color ≠ getCurrentPlayerColor gs) ∨
        tid ∉ gs.validMoves) →
      ∃ gs', moveToken gs tid = .ok gs') := by
  have hok : ¬ (gs.diceValue = none ∨
        gs.tokens.find? (fun t => decide (t.id = tid)) = none ∨
        (∃ t, gs.tokens.find? (fun t => decide (t.id = tid)) = some t ∧
          t.color ≠ getCurrentPlayerColor gs) ∨
        tid ∉ gs.validMoves) →
      ∃ gs', moveToken gs tid = .ok gs' := by
    intro hno
    push_neg at hno
    obtain ⟨h1, h2, h3, h4⟩ := hno
    exact moveToken_ok_of gs tid hids hvm h1 h2 h3 h4
  refine ⟨⟨?_, ?_⟩, hok⟩
  · intro ⟨e, he⟩
    by_contra hno
    obtain ⟨gs', hgs'⟩ := hok hno
    rw [he] at hgs'
    cases hgs'
  · intro hcond
    rcases hcond with h1 | h2 | ⟨t, hfind, hne⟩ | h4
    · refine ⟨.badRequest "Dice must be rolled first", ?_⟩
      simp only [moveToken, h1]
    · cases hd : gs.diceValue with
      | none =>
        refine ⟨.badRequest "Dice must be rolled first", ?_⟩
        simp only [moveToken, hd]
      | some d =>
        refine ⟨.badRequest "Token not found", ?_⟩
        simp only [moveToken, hd, h2]
    · cases hd : gs.diceValue with
      | none =>
        refine ⟨.badRequest "Dice must be rolled first", ?_⟩
        simp only [moveToken, hd]
      | some d =>
        refine ⟨.badRequest "Can only move your own tokens", ?_⟩
        simp only [moveToken, hd, hfind]
        rw [if_pos hne]
    · cases hd : gs.diceValue with
      | none =>
        refine ⟨.badRequest "Dice must be rolled first", ?_⟩
        simp only [moveToken, hd]
      | some d =>
        cases hfind : gs.tokens.find? (fun t => decide (t.id = tid)) with
        | none =>
          refine ⟨.badRequest "Token not found", ?_⟩
          simp only [moveToken, hd, hfind]
        | some t =>
          by_cases hc : t.color ≠ getCurrentPlayerColor gs
          · refine ⟨.badRequest "Can only move your own tokens", ?_⟩
            simp only [moveToken, hd, hfind]
            rw [if_pos hc]
          · refine ⟨.badRequest "This token is not a valid move", ?_⟩
            simp only [moveToken, hd, hfind]
            rw [if_neg hc, if_pos h4]

theorem C8_moveToken_guards_witness :
    ∃ e, moveToken sampleRollState "red-0" = .error e :=
  (C8_moveToken_guards sampleRollState "red-0" (by decide)
    (fun _ hd => Option.noConfusion hd)).1.mpr (Or.inl rfl)

-- ─── C9 ─────────────────────────────────────────────────────────────────────

theorem length_initTokens (players : List Player) :
    (players.flatMap initTokensFor).length = 4 * players.length := by
  induction players with
  | nil => rfl
  | cons p ps ih =>
    simp only [List.flatMap_cons, List.length_append, ih, List.length_cons]
    have h4 : (initTokensFor p).length = 4 := rfl
    rw [h4]
    omega

theorem mem_initTokens {players : List Player} {t : Token}
    (h : t ∈ players.flatMap initTokensFor) :
    t.position = -1 ∧ t.isInHome = true ∧ t.isInHomeStretch = false ∧
      t.isFinished = false := by
  rw [List.mem_flatMap] at h
  obtain ⟨p, -, ht⟩ := h
  simp only [initTokensFor, List.mem_map, List.mem_range] at ht
  obtain ⟨i, -, rfl⟩ := ht
  exact ⟨rfl, rfl, rfl, rfl⟩

/-- C9: `startGame` throws — leaving the directory, hence the Waiting room
without game state, unchanged (the embedding is functional) — whenever the
caller's player is not the admin, the room has fewer than 2 players, or some
non-admin player is not ready; on success the stored room is Playing and
carries a freshly initialized `GameState`: 4 tokens per player all at home,
turn index 0, dice null, rolling allowed, six counter 0, empty history, no
winner. -/
theorem C9_startGame (ds : DirectoryState) (sessionId roomCode : String) (room : Room)
    (player : Player)
    (hs : ds.playerToRoom sessionId = some roomCode)
    (hr : ds.rooms roomCode = some room)
    (hp : room.players.find? (fun p => decide (p.sessionId = sessionId)) = some player) :
    ((player.isAdmin = false ∨ room.players.length < 2 ∨
        ∃ q ∈ room.players, q.isReady = false ∧ q.isAdmin = false) →
      ∃ e, startGame ds sessionId = .error e) ∧
    (∀ ds' room', startGame ds sessionId = .ok (ds', room') →
      room'.status = .playing ∧
      ∃ g, room'.gameState = some g ∧
        g.tokens.length = 4 * room.players.length ∧
        (∀ t ∈ g.tokens, t.position = -1 ∧ t.isInHome = true ∧
          t.isInHomeStretch = false ∧ t.isFinished = false) ∧
        g.currentTurnPlayerIndex = 0 ∧ g.diceValue = none ∧ g.canRollDice = true ∧
        g.consecutiveSixes = 0 ∧ g.moveHistory = [] ∧ g.winner = none ∧
        ds'.rooms roomCode = some room') := by
  constructor
  · intro hcond
    by_cases h1 : player.isAdmin = false
    · refine ⟨.badRequest "Only admin can start the game", ?_⟩
      simp only [startGame, hs, hr, hp]
      rw [if_pos h1]
    · by_cases h2 : room.players.length < 2
      · refine ⟨.badRequest "At least 2 players required to start", ?_⟩
        simp only [startGame, hs, hr, hp]
        rw [if_neg h1, if_pos h2]
      · rcases hcond with hc1 | hc2 | ⟨q, hq, hqr, hqa⟩
        · exact absurd hc1 h1
        · exact absurd hc2 h2
        · refine ⟨.badRequest "All players must be ready", ?_⟩
          simp only [startGame, hs, hr, hp]
          rw [if_neg h1, if_neg h2, if_pos ?_]
          intro hall
          have := List.all_eq_true.mp hall q hq
          rw [hqr, hqa] at this
          cases this
  · intro ds' room' hok
    simp only [startGame, hs, hr, hp] at hok
    split_ifs at hok with h1 h2 h3
    all_goals
      first
        | exact Except.noConfusion hok
        | (cases hok
           refine ⟨rfl, initializeGame room.players, rfl,
             length_initTokens room.players, ?_, rfl, rfl, rfl, rfl, rfl, rfl, ?_⟩
           · intro t ht
             exact mem_initTokens ht
           · simp [StrMap.set])

theorem C9_startGame_witness : sampleStartedRoom.status = RoomStatus.playing := by
  have h := (C9_startGame sampleDirectory "s1" "AAAA-0000" sampleRoom sampleAdminPlayer
    rfl rfl (by decide)).2
  have hok : startGame sampleDirectory "s1" = .ok
      ({ rooms := StrMap.set sampleDirectory.rooms "AAAA-0000" sampleStartedRoom
         playerToRoom := sampleDirectory.playerToRoom }, sampleStartedRoom) := rfl
  exact (h _ _ hok).1

-- ─── C10 machinery ──────────────────────────────────────────────────────────

theorem mem_replaceFirstBy_imp_of_find? {p : α → Prop} [DecidablePred p] {f : α → α}
    {l : List α} {a w : α}
    (hfind : l.find? (fun x => decide (p x)) = some a)
    (hw : w ∈ replaceFirstBy p f l) :
    w ∈ l ∨ w = f a := by
  induction l with
  | nil => cases hfind
  | cons z zs ih =>
    by_cases hz : p z
    · rw [List.find?_cons_of_pos _ (by simpa using hz)] at hfind
      obtain rfl : z = a := Option.some.inj hfind
      rw [replaceFirstBy_cons_pos hz] at hw
      rcases List.mem_cons.mp hw with rfl | hmem
      · exact Or.inr rfl
      · exact Or.inl (List.mem_cons_of_mem _ hmem)
    · rw [List.find?_cons_of_neg _ (by simpa using hz)] at hfind
      rw [replaceFirstBy_cons_neg hz] at hw
      rcases List.mem_cons.mp hw with rfl | hmem
      · exact Or.inl (List.mem_cons_self ..)
      · rcases ih hfind hmem with h | h
        · exact Or.inl (List.mem_cons_of_mem _ h)
        · exact Or.inr h

theorem map_replaceFirstBy_of_find? {p : α → Prop} [DecidablePred p] {f : α → α}
    {g : α → β} {l : List α} {a : α}
    (hfind : l.find? (fun x => decide (p x)) = some a)
    (hga : g (f a) = g a) :
    (replaceFirstBy p f l).map g = l.map g := by
  induction l with
  | nil => rfl
  | cons z zs ih =>
    by_cases hz : p z
    · rw [List.find?_cons_of_pos _ (by simpa using hz)] at hfind
      obtain rfl : z = a := Option.some.inj hfind
      rw [replaceFirstBy_cons_pos hz]
      simp [hga]
    · rw [List.find?_cons_of_neg _ (by simpa using hz)] at hfind
      rw [replaceFirstBy_cons_neg hz]
      simp [ih hfind]

theorem nodup_map_replaceFirstBy_of_find? {p : α → Prop} [DecidablePred p] {f : α → α}
    {g : α → β} {l : List α} {a : α}
    (hfind : l.find? (fun x => decide (p x)) = some a)
    (hn : (l.map g).Nodup)
    (hval : ∀ y ∈ l, g (f a) = g y → g a = g y) :
    ((replaceFirstBy p f l).map g).Nodup := by
  induction l with
  | nil => simp [replaceFirstBy]
  | cons z zs ih =>
    rw [List.map_cons, List.nodup_cons] at hn
    by_cases hz : p z
    · rw [List.find?_cons_of_pos _ (by simpa using hz)] at hfind
      obtain rfl : z = a := Option.some.inj hfind
      rw [replaceFirstBy_cons_pos hz, List.map_cons, List.nodup_cons]
      refine ⟨?_, hn.2⟩
      intro hmem
      obtain ⟨y, hy, hgy⟩ := List.mem_map.mp hmem
      have hga := hval y (List.mem_cons_of_mem _ hy) hgy.symm
      exact hn.1 (List.mem_map.mpr ⟨y, hy, hga.symm⟩)
    · rw [List.find?_cons_of_neg _ (by simpa using hz)] at hfind
      rw [replaceFirstBy_cons_neg hz, List.map_cons, List.nodup_cons]
      refine ⟨?_, ih hfind hn.2 fun y hy => hval y (List.mem_cons_of_mem _ hy)⟩
      intro hmem
      obtain ⟨w, hw, hgw⟩ := List.mem_map.mp hmem
      rcases mem_replaceFirstBy_imp_of_find? hfind hw with hwl | rfl
      · exact hn.1 (List.mem_map.mpr ⟨w, hwl, hgw⟩)
      · have ha_mem : a ∈ zs := List.mem_of_find?_eq_some hfind
        have hga := hval z (List.mem_cons_self ..) hgw
        exact hn.1 (List.mem_map.mpr ⟨a, ha_mem, hga⟩)

theorem StrMap.get_set {α : Type} (m : StrMap α) (k : String) (v : α) (k' : String) :
    m.set k v k' = if k' = k then some v else m k' := rfl

theorem StrMap.get_del {α : Type} (m : StrMap α) (k k' : String) :
    m.del k k' = if k' = k then none else m k' := rfl

theorem DirInv_mono {ds : DirectoryState} {used used' : List String}
    (hsub : used ⊆ used') (h : DirInv ds used) : DirInv ds used' :=
  fun code r hr => ⟨(h code r hr).1, fun p hp => hsub ((h code r hr).2 p hp)⟩

theorem applyOp_inv {ds : DirectoryState} {used : List String} (op : RoomsOp)
    (hinv : DirInv ds used) (hfresh : ∀ i ∈ opNewIds op, i ∉ used) :
    DirInv (applyOp ds op) (used ++ opNewIds op) := by
  have hmono : DirInv ds (used ++ opNewIds op) :=
    DirInv_mono (List.subset_append_left _ _) hinv
  cases op with
  | create n c m sid code pid =>
    simp only [applyOp]
    unfold createRoom
    split_ifs with hmem
    · exact hmono
    · dsimp only
      intro code' r hr
      dsimp only at hr
      rw [StrMap.get_set] at hr
      split_ifs at hr with hc
      · obtain rfl := Option.some.inj hr
        refine ⟨⟨by simp, by simp⟩, ?_⟩
        intro p hp
        rw [List.mem_singleton] at hp
        subst hp
        simp [opNewIds]
      · obtain ⟨hg, hsub⟩ := hinv code' r hr
        exact ⟨hg, fun p hp => List.mem_append_left _ (hsub p hp)⟩
  | join code n sid pid =>
    simp only [applyOp]
    unfold joinRoom
    split_ifs with hmem
    · exact hmono
    · cases hroom : ds.rooms code with
      | none => exact hmono
      | some room =>
        dsimp only
        split_ifs with hstat hfull
        · exact hmono
        · exact hmono
        · cases hav : allColors.filter
              (fun c => decide (c ∉ room.players.map (·.color))) with
          | nil => exact hmono
          | cons cNew rest =>
            dsimp only
            intro code' r hr
            dsimp only at hr
            rw [StrMap.get_set] at hr
            split_ifs at hr with hc
            · obtain rfl := Option.some.inj hr
              obtain ⟨⟨hcolors, hidsn⟩, hsub⟩ := hinv code room hroom
              have hcnew : cNew ∉ room.players.map (·.color) := by
                have hmemf : cNew ∈ allColors.filter
                    (fun c => decide (c ∉ room.players.map (·.color))) := by
                  rw [hav]
                  exact List.mem_cons_self ..
                have := (List.mem_filter.mp hmemf).2
                simpa using this
              have hpidfresh : pid ∉ room.players.map (·.id) := by
                intro hmem'
                obtain ⟨q, hq, hqid⟩ := List.mem_map.mp hmem'
                exact hfresh pid (by simp [opNewIds]) (hqid ▸ hsub q hq)
              refine ⟨⟨?_, ?_⟩, ?_⟩
              · rw [List.map_append]
                refine List.nodup_append.mpr ⟨hcolors, List.nodup_singleton _, ?_⟩
                intro a ha hb
                simp only [List.map_cons, List.map_nil, List.mem_singleton] at hb
                subst hb
                exact hcnew ha
              · rw [List.map_append]
                refine List.nodup_append.mpr ⟨hidsn, List.nodup_singleton _, ?_⟩
                intro a ha hb
                simp only [List.map_cons, List.map_nil, List.mem_singleton] at hb
                subst hb
                exact hpidfresh ha
              · intro p hp
                rcases List.mem_append.mp hp with hpl | hpr
                · exact List.mem_append_left _ (hsub p hpl)
                · rw [List.mem_singleton] at hpr
                  subst hpr
                  simp [opNewIds]
            · obtain ⟨hg, hsub⟩ := hinv code' r hr
              exact ⟨hg, fun p hp => List.mem_append_left _ (hsub p hp)⟩
  | recolor sid cNew =>
    simp only [applyOp]
    unfold updatePlayerColor
    cases hptr : ds.playerToRoom sid with
    | none => exact hmono
    | some code =>
      dsimp only
      cases hroom : ds.rooms code with
      | none => exact hmono
      | some room =>
        dsimp only
        cases hfindp : room.players.find? (fun p => decide (p.sessionId = sid)) with
        | none => exact hmono
        | some player =>
          dsimp only
          split_ifs with htaken
          · exact hmono
          · dsimp only
            intro code' r hr
            dsimp only at hr
            rw [StrMap.get_set] at hr
            split_ifs at hr with hc
            · obtain rfl := Option.some.inj hr
              obtain ⟨⟨hcolors, hidsn⟩, hsub⟩ := hinv code room hroom
              refine ⟨⟨?_, ?_⟩, ?_⟩
              · apply nodup_map_replaceFirstBy_of_find? hfindp hcolors
                intro y hy hgy
                by_cases hyid : y.id = player.id
                · have hyp : y = player :=
                    List.inj_on_of_nodup_map hidsn hy
                      (List.mem_of_find?_eq_some hfindp) hyid
                  rw [hyp]
                · exfalso
                  apply htaken
                  exact List.mem_map.mpr
                    ⟨y, List.mem_filter.mpr ⟨hy, by simpa using hyid⟩, hgy.symm⟩
              · rw [map_replaceFirstBy_of_find? hfindp rfl]
                exact hidsn
              · intro p hp
                rcases mem_replaceFirstBy_imp_of_find? hfindp hp with hpl | rfl
                · exact List.mem_append_left _ (hsub p hpl)
                · exact List.mem_append_left _
                    (hsub player (List.mem_of_find?_eq_some hfindp))
            · obtain ⟨hg, hsub⟩ := hinv code' r hr
              exact ⟨hg, fun p hp => List.mem_append_left _ (hsub p hp)⟩
  | leave sid =>
    simp only [applyOp]
    unfold leaveRoom
    cases hptr : ds.playerToRoom sid with
    | none => exact hmono
    | some code =>
      dsimp only
      cases hroom : ds.rooms code with
      | none => exact hmono
      | some room =>
        dsimp only
        cases hidx : room.players.findIdx? (fun p => decide (p.sessionId = sid)) with
        | none => exact hmono
        | some i =>
          have herase_colors : ((room.players.eraseIdx i).map (·.color)).Nodup :=
            ((hinv code room hroom).1.1).sublist
              ((List.eraseIdx_sublist room.players i).map _)
          have herase_ids : ((room.players.eraseIdx i).map (·.id)).Nodup :=
            ((hinv code room hroom).1.2).sublist
              ((List.eraseIdx_sublist room.players i).map _)
          have herase_sub : ∀ p ∈ room.players.eraseIdx i, p.id ∈ used :=
            fun p hp => (hinv code room hroom).2 p
              ((List.eraseIdx_sublist room.players i).subset hp)
          dsimp only
          split_ifs with hempty hadm
          · intro code' r hr
            dsimp only at hr
            rw [StrMap.get_del] at hr
            split_ifs at hr with hc
            obtain ⟨hg, hsub⟩ := hinv code' r hr
            exact ⟨hg, fun p hp => List.mem_append_left _ (hsub p hp)⟩
          · cases hrem : room.players.eraseIdx i with
            | nil => exact absurd hrem hempty
            | cons q qs =>
              dsimp only
              intro code' r hr
              dsimp only at hr
              rw [StrMap.get_set] at hr
              split_ifs at hr with hc
              · obtain rfl := Option.some.inj hr
                rw [hrem] at herase_colors herase_ids herase_sub
                refine ⟨⟨?_, ?_⟩, ?_⟩
                · simpa using herase_colors
                · simpa using herase_ids
                · intro p hp
                  rcases List.mem_cons.mp hp with rfl | hmem
                  · exact List.mem_append_left _
                      (herase_sub q (List.mem_cons_self ..))
                  · exact List.mem_append_left _
                      (herase_sub p (List.mem_cons_of_mem _ hmem))
              · obtain ⟨hg, hsub⟩ := hinv code' r hr
                exact ⟨hg, fun p hp => List.mem_append_left _ (hsub p hp)⟩
          · dsimp only
            intro code' r hr
            dsimp only at hr
            rw [StrMap.get_set] at hr
            split_ifs at hr with hc
            · obtain rfl := Option.some.inj hr
              exact ⟨⟨herase_colors, herase_ids⟩,
                fun p hp => List.mem_append_left _ (herase_sub p hp)⟩
            · obtain ⟨hg, hsub⟩ := hinv code' r hr
              exact ⟨hg, fun p hp => List.mem_append_left _ (hsub p hp)⟩

theorem runOps_inv : ∀ (ops : List RoomsOp) (ds : DirectoryState) (used : List String),
    DirInv ds used → (used ++ ops.flatMap opNewIds).Nodup →
    DirInv (ops.foldl applyOp ds) (used ++ ops.flatMap opNewIds) := by
  intro ops
  induction ops with
  | nil =>
    intro ds used hinv _
    simpa using hinv
  | cons op ops ih =>
    intro ds used hinv hnodup
    simp only [List.flatMap_cons] at hnodup ⊢
    rw [List.foldl_cons]
    have hfresh : ∀ i ∈ opNewIds op, i ∉ used := by
      intro i hi hiu
      have hdisj := (List.nodup_append.mp hnodup).2.2
      exact hdisj hiu (List.mem_append_left _ hi)
    have h1 := applyOp_inv op hinv hfresh
    have h2 := ih (applyOp ds op) (used ++ opNewIds op) h1 (by rwa [List.append_assoc])
    rwa [← List.append_assoc]

-- ─── C10 ────────────────────────────────────────────────────────────────────

/-- C10: along any sequence of create/join/recolor/leave operations from the
empty directory (with globally fresh player uuids, as `uuidv4` provides),
every stored room's players hold pairwise-distinct colors; and on any
directory state, `createRoom` and `joinRoom` refuse a session already bound
to a room with a Conflict error, leaving the directory unchanged. -/
theorem C10_room_colors_distinct (ops : List RoomsOp)
    (hfresh : (ops.flatMap opNewIds).Nodup) :
    (∀ code room, (runOps ops).rooms code = some room →
      (room.players.map (·.color)).Nodup) ∧
    (∀ (ds : DirectoryState) (name : String) (color : PlayerColor) (cap : Nat)
        (sid code pid : String),
      (ds.playerToRoom sid).isSome = true →
        createRoom ds name color cap sid code pid =
          .error (.conflict "You are already in a room") ∧
        joinRoom ds code name sid pid =
          .error (.conflict "You are already in a room") ∧
        applyOp ds (.create name color cap sid code pid) = ds ∧
        applyOp ds (.join code name sid pid) = ds) := by
  constructor
  · intro code room hroom
    have hinv0 : DirInv initialDirectory [] := by
      intro c r hr
      exact Option.noConfusion hr
    have h := runOps_inv ops initialDirectory [] hinv0 (by simpa using hfresh)
    exact ((h code room hroom).1).1
  · intro ds name color cap sid code pid h
    refine ⟨?_, ?_, ?_, ?_⟩
    · unfold createRoom
      rw [if_pos h]
    · unfold joinRoom
      rw [if_pos h]
    · simp only [applyOp]
      unfold createRoom
      rw [if_pos h]
    · simp only [applyOp]
      unfold joinRoom
      rw [if_pos h]

theorem C10_room_colors_distinct_witness :
    (sampleJoinedRoom.players.map (·.color)).Nodup ∧
    createRoom (runOps sampleOps) "Carol" PlayerColor.green 4 "s1" "BBBB-1111" "p3" =
      .error (.conflict "You are already in a room") := by
  obtain ⟨h1, h2⟩ := C10_room_colors_distinct sampleOps (by decide)
  exact ⟨h1 "AAAA-0000" sampleJoinedRoom rfl,
    (h2 (runOps sampleOps) "Carol" .green 4 "s1" "BBBB-1111" "p3" rfl).1⟩
